import Mathlib

/-!
Verification of the OptimalStopSim repository (src/optimal_stopping.py,
src/utils.py) against its natural-language specification.

Modelling conventions.
* Python/NumPy floats are modelled as rationals (ℚ); the program only
  performs field arithmetic, comparisons and exact equality tests on them.
* The per-trial random draw np.random.uniform(0, 1, n_items) is modelled by
  passing the drawn sequences in explicitly (one list of rationals per
  trial); hypotheses record what the generator guarantees (length n_items,
  values in [0,1]).
* A NumPy/pandas value that is not a finite number (NaN from 0/0 or from an
  empty reduction) is modelled as Option.none.  In every data set produced
  by the simulation engine a zero divisor comes with a zero numerator
  (values lie in [0,1] and the divisor is the sequence maximum), so none
  always stands for NaN there; pandas Series.mean/median skip NaN cells and
  np.median propagates them, and the model follows that behaviour.
* An uncaught Python exception is modelled as Option.none at the level of
  the whole call: an out-of-range index in a trial makes the run none, and
  a missing DataFrame column (pandas KeyError) makes calculate_statistics
  none.
* A pandas DataFrame built from a list of per-row dicts is modelled as a
  list of association lists (row order preserved, one (key, cell) pair per
  dict entry, in the order the dict literal writes them).
-/

namespace OptimalStopSim

/-- A cell of a simulation record: the Python dicts hold numbers and
booleans. -/
inductive PyVal
  | num (q : ℚ)
  | bool (b : Bool)
deriving Repr, DecidableEq

/-- np.max over a list, as used on nonempty arrays; the empty case (never
reached by the modelled code paths with a positive look phase) returns the
junk value 0. -/
def listMax : List ℚ → ℚ
  | [] => 0
  | x :: xs => xs.foldl max x

/-- look_phase = int(n_items * look_ratio) from optimal_stopping.py.
Python's int() truncates toward zero; for the nonnegative products this
development works with (every theorem below that touches the look phase
assumes 0 <= look_ratio) truncation coincides with the floor, and
Int.toNat leaves the nonnegative integer unchanged.  A negative
look_ratio would make Python's look_phase negative, with the scan then
running over negative (wrapped) indices and raising IndexError when
look_phase < -n_items; that regime is outside this model, which is why
no theorem quantifies over negative look ratios. -/
def lookPhaseLen (n_items : ℕ) (look_ratio : ℚ) : ℕ :=
  (⌊(n_items : ℚ) * look_ratio⌋).toNat

/-- look_max = np.max(sequence[:look_phase]) if look_phase > 0 else -np.inf.
The value -np.inf is modelled as none: the only use of look_max is the
comparison look_max > 0, which is false for -np.inf. -/
def lookMax (sequence : List ℚ) (look_phase : ℕ) : Option ℚ :=
  if 0 < look_phase then some (listMax (sequence.take look_phase)) else none

/-- relative_value = current_value / look_max if look_max > 0 else 0. -/
def relativeValue (look_max : Option ℚ) (current_value : ℚ) : ℚ :=
  match look_max with
  | some m => if 0 < m then current_value / m else 0
  | none => 0

/-- The acceptance test of the selection loop:
relative_value >= threshold_ratio. -/
def accepts (look_max : Option ℚ) (threshold_ratio current_value : ℚ) : Bool :=
  decide (threshold_ratio ≤ relativeValue look_max current_value)

/-- The selection loop of simulate_optimal_stopping: scan the given indices
in order carrying the current (selected_pos, selected_value); on the first
index whose value passes the acceptance test, overwrite the pair and break;
if the loop completes, keep the incoming pair. -/
def selectionLoop (sequence : List ℚ) (look_max : Option ℚ)
    (threshold_ratio : ℚ) : List ℕ → ℕ × ℚ → ℕ × ℚ
  | [], acc => acc
  | i :: rest, acc =>
      let current_value := sequence.getD i 0
      if accepts look_max threshold_ratio current_value then (i, current_value)
      else selectionLoop sequence look_max threshold_ratio rest acc

/-- One record of the results list built by simulate_optimal_stopping:
the four entries of the Python dict literal. -/
structure TrialResult where
  position : ℕ
  value : ℚ
  is_best : Bool
  best_possible : ℚ
deriving Repr, DecidableEq

/-- The body of the per-trial loop of simulate_optimal_stopping, for one
drawn sequence.  none models the IndexError raised by
sequence[selected_pos] when the array is empty (n_items = 0); on a
nonempty sequence with 0 <= look_ratio the body is total and every index
the loop reads is in range, so the getD default is never taken.  (For a
negative look_ratio Python scans negative indices — wrapping for
-n_items <= look_phase < 0, IndexError below that — a regime this model
does not cover; no theorem uses it.) -/
def runTrial (n_items : ℕ) (sequence : List ℚ)
    (look_ratio threshold_ratio : ℚ) : Option TrialResult :=
  let look_phase := lookPhaseLen n_items look_ratio
  let look_max := lookMax sequence look_phase
  if sequence = [] then none
  else
    let init : ℕ × ℚ := (n_items - 1, sequence.getD (n_items - 1) 0)
    let sel := selectionLoop sequence look_max threshold_ratio
      (List.range' look_phase (n_items - look_phase)) init
    some ⟨sel.1, sel.2, decide (sel.2 = listMax sequence), listMax sequence⟩

/-- The accumulation loop of simulate_optimal_stopping over a list of trial
indices: run each trial on its drawn sequence, collecting the records in
order; the first failing trial aborts the run. -/
def runTrials (n_items : ℕ) (look_ratio threshold_ratio : ℚ)
    (draws : ℕ → List ℚ) : List ℕ → Option (List TrialResult)
  | [] => some []
  | k :: ks => do
      let r ← runTrial n_items (draws k) look_ratio threshold_ratio
      let rest ← runTrials n_items look_ratio threshold_ratio draws ks
      some (r :: rest)

/-- simulate_optimal_stopping(n_items, n_simulations, look_ratio,
threshold_ratio): n_simulations independent trials; trial k uses the
sequence draws k returned by its np.random.uniform(0, 1, n_items) call. -/
def simulate_optimal_stopping (n_items n_simulations : ℕ)
    (look_ratio threshold_ratio : ℚ) (draws : ℕ → List ℚ) :
    Option (List TrialResult) :=
  runTrials n_items look_ratio threshold_ratio draws (List.range n_simulations)

/-- The row dict appended for one trial, with the keys in the order written
in the source. -/
def trialRow (r : TrialResult) : List (String × PyVal) :=
  [("position", PyVal.num r.position), ("value", PyVal.num r.value),
   ("is_best", PyVal.bool r.is_best), ("best_possible", PyVal.num r.best_possible)]

/-- pd.DataFrame(results): the DataFrame returned by
simulate_optimal_stopping, as a list of rows. -/
def simulateDF (n_items n_simulations : ℕ)
    (look_ratio threshold_ratio : ℚ) (draws : ℕ → List ℚ) :
    Option (List (List (String × PyVal))) :=
  (simulate_optimal_stopping n_items n_simulations look_ratio threshold_ratio
    draws).map (List.map trialRow)

/-- Column access results[c] on a DataFrame built from a list of dicts: the
column exists when some row carries the key (rows without it hold NaN,
modelled as none); accessing an absent column raises KeyError, modelled as
none for the whole access.  A DataFrame from an empty list has no
columns. -/
def getColumn (df : List (List (String × PyVal))) (c : String) :
    Option (List (Option PyVal)) :=
  if df.any (fun row => (List.lookup c row).isSome) then
    some (df.map (fun row => List.lookup c row))
  else none

/-- Numeric view of a cell, as pandas reductions use it: booleans count as
1/0, a missing cell is NaN. -/
def toNumCell : Option PyVal → Option ℚ
  | some (PyVal.num q) => some q
  | some (PyVal.bool b) => some (if b then 1 else 0)
  | none => none

/-- pandas Series.mean with its default skipna=True: drop NaN cells, NaN on
an empty remainder. -/
def seriesMean (col : List (Option ℚ)) : Option ℚ :=
  let v := col.filterMap id
  if v = [] then none else some (v.sum / v.length)

/-- Elementwise Series division: a zero divisor gives a non-finite float
(NaN here, since in the data sets considered the numerator is then zero as
well), and NaN operands propagate. -/
def seriesDiv (a b : List (Option ℚ)) : List (Option ℚ) :=
  List.zipWith (fun x y =>
    match x, y with
    | some xv, some yv => if yv = 0 then none else some (xv / yv)
    | _, _ => none) a b

/-- The median of an ascending list: middle element, or the mean of the two
middle elements; NaN (none) on an empty list. -/
def medianOfSorted (v : List ℚ) : Option ℚ :=
  if v = [] then none
  else if v.length % 2 = 1 then some (v.getD (v.length / 2) 0)
  else some ((v.getD (v.length / 2 - 1) 0 + v.getD (v.length / 2) 0) / 2)

/-- pandas Series.median with its default skipna=True. -/
def seriesMedian (col : List (Option ℚ)) : Option ℚ :=
  medianOfSorted ((col.filterMap id).mergeSort (fun a b => decide (a ≤ b)))

/-- np.median: unlike Series.median it propagates NaN. -/
def npMedian (col : List (Option ℚ)) : Option ℚ :=
  if col.any (fun x => x.isNone) then none else seriesMedian col

/-- The stats dict returned by calculate_statistics, fields in the order of
the source's dict literal. -/
structure Statistics where
  success_rate : Option ℚ
  avg_position : Option ℚ
  best_value_rate : Option ℚ
  failure_rate : Option ℚ
  median_position : Option ℚ
  median_value : Option ℚ
  median_best_possible : Option ℚ
  median_value_rate : Option ℚ
deriving Repr, DecidableEq

/-- calculate_statistics(results) from utils.py.  Each dict entry reduces
one column; results is the DataFrame of the simulation.  The access
results["failure_to_find"] participates like the others: if any accessed
column is missing the call raises KeyError (none). -/
def calculate_statistics (results : List (List (String × PyVal))) :
    Option Statistics := do
  let is_best ← getColumn results ("is_best")
  let position ← getColumn results ("position")
  let value ← getColumn results ("value")
  let best_possible ← getColumn results ("best_possible")
  let failure_to_find ← getColumn results ("failure_to_find")
  some ⟨seriesMean (is_best.map toNumCell),
        seriesMean (position.map toNumCell),
        seriesMean (seriesDiv (value.map toNumCell) (best_possible.map toNumCell)),
        seriesMean (failure_to_find.map toNumCell),
        seriesMedian (position.map toNumCell),
        seriesMedian (value.map toNumCell),
        seriesMedian (best_possible.map toNumCell),
        npMedian (seriesDiv (value.map toNumCell) (best_possible.map toNumCell))⟩

/-- The NumPy sampling calls the repository issues, identified by the
distribution and its parameters. -/
inductive RandomCall
  | uniform (lo hi : ℚ) (size : ℕ)
  | normal (mu sigma : ℚ) (size : ℕ)
deriving Repr, DecidableEq

/-- The single sampling call issued by generate_sample_sequence(n_items) in
utils.py: np.random.normal(0.5, 0.15, n_items). -/
def generate_sample_sequence_call (n_items : ℕ) : RandomCall :=
  RandomCall.normal (1/2) (3/20) n_items

/-- np.clip(x, 0, 1) on one element. -/
def clip01 (x : ℚ) : ℚ := min (max x 0) 1

/-- generate_sample_sequence(n_items) as a function of the draws returned
by its one normal sampling call: np.clip(draws, 0, 1). -/
def generate_sample_sequence (draws : List ℚ) : List ℚ :=
  draws.map clip01

/-- The pair (selected_pos, selected_value) computed by the selection phase
of one trial: a name for the selectionLoop application inside runTrial,
for use in lemma statements. -/
def trialSel (n_items : ℕ) (sequence : List ℚ)
    (look_ratio threshold_ratio : ℚ) : ℕ × ℚ :=
  selectionLoop sequence (lookMax sequence (lookPhaseLen n_items look_ratio))
    threshold_ratio
    (List.range' (lookPhaseLen n_items look_ratio)
      (n_items - lookPhaseLen n_items look_ratio))
    (n_items - 1, sequence.getD (n_items - 1) 0)

/-- Whether some selection-phase item passes the acceptance test of the
loop in simulate_optimal_stopping: exactly the condition under which the
loop breaks early instead of keeping the fallback (last item). -/
def acceptanceExists (n_items : ℕ) (sequence : List ℚ)
    (look_ratio threshold_ratio : ℚ) : Bool :=
  (List.range' (lookPhaseLen n_items look_ratio)
    (n_items - lookPhaseLen n_items look_ratio)).any
    (fun i => accepts (lookMax sequence (lookPhaseLen n_items look_ratio))
      threshold_ratio (sequence.getD i 0))

/-- Modelled from the spec (claim C2 wording): the acceptance condition
"sequence[i] / look_max >= threshold_ratio, where look_max is the maximum
of the first floor(n_items * look_ratio) items and the ratio is taken to be
0 whenever look_max <= 0 (including the empty look phase)". -/
def specAccepts (sequence : List ℚ) (n_items : ℕ)
    (look_ratio threshold_ratio : ℚ) (i : ℕ) : Bool :=
  let firstItems := sequence.take (lookPhaseLen n_items look_ratio)
  decide (threshold_ratio ≤
    if firstItems ≠ [] ∧ 0 < listMax firstItems then
      sequence.getD i 0 / listMax firstItems
    else 0)

/-! ### Helper lemmas -/

theorem le_foldl_max (l : List ℚ) : ∀ b : ℚ, b ≤ l.foldl max b := by
  induction l with
  | nil => intro b; exact le_refl b
  | cons a l ih =>
      intro b
      exact le_trans (le_max_left b a) (ih (max b a))

theorem mem_le_foldl_max (l : List ℚ) :
    ∀ b x : ℚ, x ∈ l → x ≤ l.foldl max b := by
  induction l with
  | nil => intro b x hx; cases hx
  | cons a l ih =>
      intro b x hx
      rcases List.mem_cons.mp hx with h | h
      · subst h
        exact le_trans (le_max_right b x) (le_foldl_max l (max b x))
      · exact ih (max b a) x h

theorem le_listMax (l : List ℚ) (x : ℚ) (hx : x ∈ l) : x ≤ listMax l := by
  cases l with
  | nil => cases hx
  | cons a l =>
      rcases List.mem_cons.mp hx with h | h
      · subst h; exact le_foldl_max l x
      · exact mem_le_foldl_max l a x h

theorem selectionLoop_cons (sequence : List ℚ) (lm : Option ℚ) (t : ℚ)
    (i : ℕ) (rest : List ℕ) (acc : ℕ × ℚ) :
    selectionLoop sequence lm t (i :: rest) acc =
      if accepts lm t (sequence.getD i 0) then (i, sequence.getD i 0)
      else selectionLoop sequence lm t rest acc := rfl

theorem selectionLoop_of_forall_not (sequence : List ℚ) (lm : Option ℚ)
    (t : ℚ) :
    ∀ (l : List ℕ) (acc : ℕ × ℚ),
      (∀ i ∈ l, accepts lm t (sequence.getD i 0) = false) →
      selectionLoop sequence lm t l acc = acc := by
  intro l
  induction l with
  | nil => intro acc _; rfl
  | cons i rest ih =>
      intro acc h
      have hi : accepts lm t (sequence.getD i 0) = false :=
        h i (List.mem_cons_self i rest)
      rw [selectionLoop_cons, if_neg (by rw [hi]; exact Bool.false_ne_true)]
      exact ih acc (fun j hj => h j (List.mem_cons_of_mem i hj))

theorem selectionLoop_range'_found (sequence : List ℚ) (lm : Option ℚ)
    (t : ℚ) :
    ∀ (k s : ℕ) (acc : ℕ × ℚ) (i : ℕ), s ≤ i → i < s + k →
      accepts lm t (sequence.getD i 0) = true →
      ∃ j, s ≤ j ∧ j < s + k ∧ accepts lm t (sequence.getD j 0) = true ∧
        (∀ j2, s ≤ j2 → j2 < j → accepts lm t (sequence.getD j2 0) = false) ∧
        selectionLoop sequence lm t (List.range' s k) acc =
          (j, sequence.getD j 0) := by
  intro k
  induction k with
  | zero =>
      intro s acc i hsi hik _
      omega
  | succ k ih =>
      intro s acc i hsi hik hacc
      by_cases hp : accepts lm t (sequence.getD s 0) = true
      · refine ⟨s, le_refl s, by omega, hp, ?_, ?_⟩
        · intro j2 h1 h2; omega
        · rw [show List.range' s (k + 1) = s :: List.range' (s + 1) k from
            List.range'_succ s k 1, selectionLoop_cons, if_pos hp]
      · have hp' : accepts lm t (sequence.getD s 0) = false :=
          Bool.eq_false_iff.mpr hp
        have his : i ≠ s := by
          intro h; rw [h] at hacc; exact hp hacc
        obtain ⟨j, h1, h2, h3, h4, h5⟩ :=
          ih (s + 1) acc i (by omega) (by omega) hacc
        refine ⟨j, by omega, by omega, h3, ?_, ?_⟩
        · intro j2 hj1 hj2
          rcases Nat.eq_or_lt_of_le hj1 with h | h
          · rw [← h]; exact hp'
          · exact h4 j2 h hj2
        · rw [show List.range' s (k + 1) = s :: List.range' (s + 1) k from
            List.range'_succ s k 1, selectionLoop_cons,
            if_neg (by rw [hp']; exact Bool.false_ne_true)]
          exact h5

theorem selectionLoop_snd (sequence : List ℚ) (lm : Option ℚ) (t : ℚ) :
    ∀ (l : List ℕ) (acc : ℕ × ℚ), acc.2 = sequence.getD acc.1 0 →
      (selectionLoop sequence lm t l acc).2 =
        sequence.getD (selectionLoop sequence lm t l acc).1 0 := by
  intro l
  induction l with
  | nil => intro acc h; exact h
  | cons i rest ih =>
      intro acc h
      by_cases hp : accepts lm t (sequence.getD i 0) = true
      · rw [selectionLoop_cons, if_pos hp]
      · have hp' : accepts lm t (sequence.getD i 0) = false :=
          Bool.eq_false_iff.mpr hp
        rw [selectionLoop_cons, if_neg (by rw [hp']; exact Bool.false_ne_true)]
        exact ih acc h

theorem runTrial_eq (n_items : ℕ) (sequence : List ℚ)
    (look_ratio threshold_ratio : ℚ) (hne : sequence ≠ []) :
    runTrial n_items sequence look_ratio threshold_ratio =
      some ⟨(trialSel n_items sequence look_ratio threshold_ratio).1,
            (trialSel n_items sequence look_ratio threshold_ratio).2,
            decide ((trialSel n_items sequence look_ratio threshold_ratio).2 =
              listMax sequence),
            listMax sequence⟩ := by
  simp [runTrial, trialSel, hne]

theorem runTrial_value_eq (n_items : ℕ) (sequence : List ℚ)
    (look_ratio threshold_ratio : ℚ) (r : TrialResult)
    (h : runTrial n_items sequence look_ratio threshold_ratio = some r) :
    r.value = sequence.getD r.position 0 := by
  have hne : sequence ≠ [] := by
    intro hnil
    rw [hnil] at h
    simp [runTrial] at h
  rw [runTrial_eq n_items sequence look_ratio threshold_ratio hne] at h
  have hsnd := selectionLoop_snd sequence
    (lookMax sequence (lookPhaseLen n_items look_ratio)) threshold_ratio
    (List.range' (lookPhaseLen n_items look_ratio)
      (n_items - lookPhaseLen n_items look_ratio))
    (n_items - 1, sequence.getD (n_items - 1) 0) rfl
  cases h
  exact hsnd

theorem runTrial_ne_nil (n_items : ℕ) (sequence : List ℚ)
    (look_ratio threshold_ratio : ℚ) (r : TrialResult)
    (h : runTrial n_items sequence look_ratio threshold_ratio = some r) :
    sequence ≠ [] := by
  intro hnil
  rw [hnil] at h
  simp [runTrial] at h

theorem runTrial_best_possible (n_items : ℕ) (sequence : List ℚ)
    (look_ratio threshold_ratio : ℚ) (r : TrialResult)
    (h : runTrial n_items sequence look_ratio threshold_ratio = some r) :
    r.best_possible = listMax sequence := by
  rw [runTrial_eq n_items sequence look_ratio threshold_ratio
    (runTrial_ne_nil n_items sequence look_ratio threshold_ratio r h)] at h
  cases h
  rfl

theorem runTrial_is_best (n_items : ℕ) (sequence : List ℚ)
    (look_ratio threshold_ratio : ℚ) (r : TrialResult)
    (h : runTrial n_items sequence look_ratio threshold_ratio = some r) :
    (r.is_best = true ↔ r.value = r.best_possible) := by
  rw [runTrial_eq n_items sequence look_ratio threshold_ratio
    (runTrial_ne_nil n_items sequence look_ratio threshold_ratio r h)] at h
  cases h
  exact decide_eq_true_iff

theorem runTrial_position_char (n_items : ℕ) (sequence : List ℚ)
    (look_ratio threshold_ratio : ℚ) (r : TrialResult)
    (h : runTrial n_items sequence look_ratio threshold_ratio = some r) :
    ((∃ i, lookPhaseLen n_items look_ratio ≤ i ∧ i < n_items ∧
        accepts (lookMax sequence (lookPhaseLen n_items look_ratio))
          threshold_ratio (sequence.getD i 0) = true) →
      lookPhaseLen n_items look_ratio ≤ r.position ∧ r.position < n_items ∧
        accepts (lookMax sequence (lookPhaseLen n_items look_ratio))
          threshold_ratio (sequence.getD r.position 0) = true ∧
        ∀ j, lookPhaseLen n_items look_ratio ≤ j → j < r.position →
          accepts (lookMax sequence (lookPhaseLen n_items look_ratio))
            threshold_ratio (sequence.getD j 0) = false) ∧
    ((∀ i, lookPhaseLen n_items look_ratio ≤ i → i < n_items →
        accepts (lookMax sequence (lookPhaseLen n_items look_ratio))
          threshold_ratio (sequence.getD i 0) = false) →
      r.position = n_items - 1) := by
  have hne := runTrial_ne_nil n_items sequence look_ratio threshold_ratio r h
  rw [runTrial_eq n_items sequence look_ratio threshold_ratio hne] at h
  have hpos : r.position =
      (trialSel n_items sequence look_ratio threshold_ratio).1 := by
    cases h; rfl
  constructor
  · rintro ⟨i, hi1, hi2, hi3⟩
    have hlpn : lookPhaseLen n_items look_ratio < n_items := by omega
    obtain ⟨j, h1, h2, h3, h4, h5⟩ :=
      selectionLoop_range'_found sequence
        (lookMax sequence (lookPhaseLen n_items look_ratio)) threshold_ratio
        (n_items - lookPhaseLen n_items look_ratio)
        (lookPhaseLen n_items look_ratio)
        (n_items - 1, sequence.getD (n_items - 1) 0) i hi1 (by omega) hi3
    have hj : (trialSel n_items sequence look_ratio threshold_ratio).1 = j := by
      rw [trialSel, h5]
    rw [hpos, hj]
    exact ⟨h1, by omega, h3, h4⟩
  · intro hall
    have hloop := selectionLoop_of_forall_not sequence
      (lookMax sequence (lookPhaseLen n_items look_ratio)) threshold_ratio
      (List.range' (lookPhaseLen n_items look_ratio)
        (n_items - lookPhaseLen n_items look_ratio))
      (n_items - 1, sequence.getD (n_items - 1) 0) ?_
    · rw [hpos, trialSel, hloop]
    · intro i hi
      have hbounds := List.mem_range'_1.mp hi
      exact hall i hbounds.1 (by omega)

theorem runTrial_position_lt (n_items : ℕ) (sequence : List ℚ)
    (look_ratio threshold_ratio : ℚ) (r : TrialResult) (hn : 1 ≤ n_items)
    (h : runTrial n_items sequence look_ratio threshold_ratio = some r) :
    r.position < n_items := by
  have hne := runTrial_ne_nil n_items sequence look_ratio threshold_ratio r h
  rw [runTrial_eq n_items sequence look_ratio threshold_ratio hne] at h
  have hpos : r.position =
      (trialSel n_items sequence look_ratio threshold_ratio).1 := by
    cases h; rfl
  by_cases hacc : ∃ i ∈ List.range' (lookPhaseLen n_items look_ratio)
      (n_items - lookPhaseLen n_items look_ratio),
      accepts (lookMax sequence (lookPhaseLen n_items look_ratio))
        threshold_ratio (sequence.getD i 0) = true
  · obtain ⟨i, hi, hib⟩ := hacc
    have hbounds := List.mem_range'_1.mp hi
    obtain ⟨j, h1, h2, _, _, h5⟩ :=
      selectionLoop_range'_found sequence
        (lookMax sequence (lookPhaseLen n_items look_ratio)) threshold_ratio
        (n_items - lookPhaseLen n_items look_ratio)
        (lookPhaseLen n_items look_ratio)
        (n_items - 1, sequence.getD (n_items - 1) 0) i hbounds.1 hbounds.2 hib
    rw [hpos, trialSel, h5]
    simp only
    omega
  · have hloop := selectionLoop_of_forall_not sequence
      (lookMax sequence (lookPhaseLen n_items look_ratio)) threshold_ratio
      (List.range' (lookPhaseLen n_items look_ratio)
        (n_items - lookPhaseLen n_items look_ratio))
      (n_items - 1, sequence.getD (n_items - 1) 0)
      (fun i hi => Bool.eq_false_iff.mpr (fun hb => hacc ⟨i, hi, hb⟩))
    rw [hpos, trialSel, hloop]
    simp only
    omega

theorem runTrials_cons (n_items : ℕ) (look_ratio threshold_ratio : ℚ)
    (draws : ℕ → List ℚ) (k : ℕ) (ks : List ℕ) :
    runTrials n_items look_ratio threshold_ratio draws (k :: ks) =
      (runTrial n_items (draws k) look_ratio threshold_ratio).bind (fun r =>
        (runTrials n_items look_ratio threshold_ratio draws ks).map
          (fun rest => r :: rest)) := by
  cases h : runTrial n_items (draws k) look_ratio threshold_ratio with
  | none => simp [runTrials, h]
  | some r =>
      cases h2 : runTrials n_items look_ratio threshold_ratio draws ks with
      | none => simp [runTrials, h, h2]
      | some rest => simp [runTrials, h, h2]

theorem runTrials_mem (n_items : ℕ) (look_ratio threshold_ratio : ℚ)
    (draws : ℕ → List ℚ) :
    ∀ (ks : List ℕ) (out : List TrialResult),
      runTrials n_items look_ratio threshold_ratio draws ks = some out →
      ∀ r ∈ out, ∃ k ∈ ks,
        runTrial n_items (draws k) look_ratio threshold_ratio = some r := by
  intro ks
  induction ks with
  | nil =>
      intro out h r hr
      simp [runTrials] at h
      subst h
      cases hr
  | cons k ks ih =>
      intro out h r hr
      cases h1 : runTrial n_items (draws k) look_ratio threshold_ratio with
      | none => simp [runTrials, h1] at h
      | some r1 =>
          cases h2 : runTrials n_items look_ratio threshold_ratio draws ks with
          | none => simp [runTrials, h1, h2] at h
          | some rest =>
              simp [runTrials, h1, h2] at h
              subst h
              rcases List.mem_cons.mp hr with hcase | hcase
              · exact ⟨k, List.mem_cons_self k ks, by rw [hcase]; exact h1⟩
              · obtain ⟨k2, hk2, hk2r⟩ := ih rest h2 r hcase
                exact ⟨k2, List.mem_cons_of_mem k hk2, hk2r⟩

theorem runTrials_length (n_items : ℕ) (look_ratio threshold_ratio : ℚ)
    (draws : ℕ → List ℚ) :
    ∀ ks : List ℕ, (∀ k ∈ ks, draws k ≠ []) →
      ∃ out, runTrials n_items look_ratio threshold_ratio draws ks = some out ∧
        out.length = ks.length := by
  intro ks
  induction ks with
  | nil => exact fun _ => ⟨[], rfl, rfl⟩
  | cons k ks ih =>
      intro h
      obtain ⟨out, hout, hlen⟩ := ih (fun j hj => h j (List.mem_cons_of_mem k hj))
      have hne : draws k ≠ [] := h k (List.mem_cons_self k ks)
      obtain ⟨r, hr⟩ : ∃ r,
          runTrial n_items (draws k) look_ratio threshold_ratio = some r :=
        ⟨_, runTrial_eq n_items (draws k) look_ratio threshold_ratio hne⟩
      refine ⟨r :: out, ?_, by simp [hlen]⟩
      rw [runTrials_cons, hr, hout]
      rfl

theorem accepts_eq_specAccepts (sequence : List ℚ) (n_items : ℕ)
    (look_ratio threshold_ratio : ℚ) (i : ℕ) :
    accepts (lookMax sequence (lookPhaseLen n_items look_ratio))
      threshold_ratio (sequence.getD i 0) =
    specAccepts sequence n_items look_ratio threshold_ratio i := by
  rw [accepts, specAccepts, lookMax]
  by_cases hlp : 0 < lookPhaseLen n_items look_ratio
  · rw [if_pos hlp]
    simp only [relativeValue]
    by_cases hseq : sequence = []
    · subst hseq
      simp [listMax]
    · have hne : sequence.take (lookPhaseLen n_items look_ratio) ≠ [] := by
        rw [Ne, List.take_eq_nil_iff]
        push_neg
        exact ⟨by omega, hseq⟩
      by_cases hm : 0 < listMax (sequence.take (lookPhaseLen n_items look_ratio))
      · simp only [if_pos hm, if_pos (And.intro hne hm)]
      · have hcond : ¬(List.take (lookPhaseLen n_items look_ratio) sequence
            ≠ [] ∧ 0 < listMax
              (List.take (lookPhaseLen n_items look_ratio) sequence)) :=
          fun hc => hm hc.2
        simp only [if_neg hm, if_neg hcond]
  · rw [if_neg hlp]
    simp only [relativeValue]
    have hlp0 : lookPhaseLen n_items look_ratio = 0 := by omega
    rw [hlp0]
    simp [listMax]

theorem seriesDiv_map_some (qs : List ℚ) :
    ∀ bs : List ℚ, (∀ p ∈ qs.zip bs, p.2 ≠ 0) →
      seriesDiv (qs.map some) (bs.map some) =
        (qs.zip bs).map (fun p => some (p.1 / p.2)) := by
  induction qs with
  | nil => intro bs _; simp [seriesDiv]
  | cons q qs ih =>
      intro bs h
      cases bs with
      | nil => simp [seriesDiv]
      | cons b bs =>
          have hb : b ≠ 0 := h (q, b) (by simp)
          have ih2 := ih bs (fun p hp => h p (by simp [hp]))
          have hstep : seriesDiv (some q :: qs.map some)
              (some b :: bs.map some) =
              (if b = 0 then none else some (q / b)) ::
                seriesDiv (qs.map some) (bs.map some) := rfl
          rw [List.map_cons, List.map_cons, hstep, if_neg hb,
            List.zip_cons_cons, List.map_cons, ih2]

/-! ### Claim theorems -/

/-- Claim C1: the claim states that every Trial Outcome record produced by
the run carries a failed field (true on fallback trials).  The code appends
a record with exactly the keys position, value, is_best and best_possible:
on the failing input n_items = 2, n_simulations = 1, look_ratio = 1/2,
threshold_ratio = 2, drawn sequence [1/2, 1/4], no selection-phase item
passes the acceptance test and the engine falls back to the last item
(position 1), yet the record holds neither a failed key nor the
failure_to_find key that calculate_statistics later reads. -/
theorem C1_no_failed_field :
    simulateDF 2 1 (1/2) 2 (fun _ => [1/2, 1/4]) =
      some [[("position", PyVal.num 1), ("value", PyVal.num (1/4)),
             ("is_best", PyVal.bool false),
             ("best_possible", PyVal.num (1/2))]] ∧
    List.lookup ("failed") [("position", PyVal.num 1),
      ("value", PyVal.num (1/4)), ("is_best", PyVal.bool false),
      ("best_possible", PyVal.num (1/2))] = none ∧
    List.lookup ("failure_to_find") [("position", PyVal.num 1),
      ("value", PyVal.num (1/4)), ("is_best", PyVal.bool false),
      ("best_possible", PyVal.num (1/2))] = none := by
  refine ⟨?_, by simp [List.lookup], by simp [List.lookup]⟩
  norm_num [simulateDF, simulate_optimal_stopping, runTrials, runTrial,
    lookPhaseLen, lookMax, listMax, selectionLoop, accepts, relativeValue,
    List.range', List.cons_ne_nil, trialRow]

/-- Claim C2: for a valid trial the selected position is the smallest index
i in [floor(n_items * look_ratio), n_items - 1] whose value passes the
spec's acceptance condition (value / look_max at least threshold_ratio,
the ratio read as 0 whenever look_max is nonpositive or the look phase is
empty), and n_items - 1 when no index passes. -/
theorem C2_selection_rule (n_items : ℕ) (sequence : List ℚ)
    (look_ratio threshold_ratio : ℚ) (r : TrialResult)
    (hn : 1 ≤ n_items) (hlr0 : 0 ≤ look_ratio) (hlr1 : look_ratio ≤ 1)
    (ht : 0 ≤ threshold_ratio) (hlen : sequence.length = n_items)
    (hrun : runTrial n_items sequence look_ratio threshold_ratio = some r) :
    ((∃ i, lookPhaseLen n_items look_ratio ≤ i ∧ i < n_items ∧
        specAccepts sequence n_items look_ratio threshold_ratio i = true) →
      lookPhaseLen n_items look_ratio ≤ r.position ∧ r.position < n_items ∧
        specAccepts sequence n_items look_ratio threshold_ratio r.position
          = true ∧
        ∀ j, lookPhaseLen n_items look_ratio ≤ j → j < r.position →
          specAccepts sequence n_items look_ratio threshold_ratio j
            = false) ∧
    ((∀ i, lookPhaseLen n_items look_ratio ≤ i → i < n_items →
        specAccepts sequence n_items look_ratio threshold_ratio i = false) →
      r.position = n_items - 1) := by
  have hchar := runTrial_position_char n_items sequence look_ratio
    threshold_ratio r hrun
  simp only [accepts_eq_specAccepts] at hchar
  exact hchar

/-- Witness for C2 at n_items = 2, sequence [1/2, 3/4], look_ratio = 1/2,
threshold_ratio = 1: the trial accepts index 1 and the characterization
applies. -/
theorem C2_selection_rule_witness :
    lookPhaseLen 2 (1/2) ≤ (⟨1, 3/4, true, 3/4⟩ : TrialResult).position ∧
    (⟨1, 3/4, true, 3/4⟩ : TrialResult).position < 2 ∧
    specAccepts [1/2, 3/4] 2 (1/2) 1
      (⟨1, 3/4, true, 3/4⟩ : TrialResult).position = true :=
  have h := (C2_selection_rule 2 [1/2, 3/4] (1/2) 1 ⟨1, 3/4, true, 3/4⟩
    (by norm_num) (by norm_num) (by norm_num) (by norm_num) (by norm_num)
    (by norm_num [runTrial, lookPhaseLen, lookMax, listMax, selectionLoop,
      accepts, relativeValue, List.range', List.cons_ne_nil])).1
    ⟨1, by norm_num [lookPhaseLen], by norm_num,
      by norm_num [specAccepts, lookPhaseLen, listMax]⟩
  ⟨h.1, h.2.1, h.2.2.1⟩

/-- Claim C3 counterexample: the claim states that invalid parameters raise
InvalidParameterError before any simulation work.  The code performs no
validation: n_simulations = 0 (below 1) returns an empty outcome set,
look_ratio = 3/2 (above 1) and threshold_ratio = -1 (below 0) run to
completion. -/
theorem C3_counterexample :
    simulate_optimal_stopping 5 0 (37/100) 1
      (fun _ => [1/10, 1/5, 3/10, 2/5, 1/2]) = some [] ∧
    (simulate_optimal_stopping 2 1 (3/2) 1 (fun _ => [1/2, 3/4])).isSome
      = true ∧
    (simulate_optimal_stopping 2 1 (1/2) (-1) (fun _ => [1/2, 3/4])).isSome
      = true := by
  refine ⟨by norm_num [simulate_optimal_stopping, runTrials], ?_, ?_⟩ <;>
  norm_num [simulate_optimal_stopping, runTrials, runTrial, lookPhaseLen,
    lookMax, listMax, selectionLoop, accepts, relativeValue, List.range',
    List.cons_ne_nil]

/-- Claim C3 amended: simulate_optimal_stopping performs no parameter
validation and raises no InvalidParameterError up front.  For any
nonnegative look_ratio — including look_ratio > 1 — and any
threshold_ratio — including negative ones — the run completes normally
whenever n_items is at least 1; n_simulations = 0 silently yields an empty
outcome set; and n_items = 0 fails only inside the first trial (IndexError
on the empty sequence), not before simulation work begins.  (Negative look
ratios drive Python into negative-index territory outside this model and
are not claimed here.) -/
theorem C3_amended_no_validation (n_items n_simulations : ℕ)
    (look_ratio threshold_ratio : ℚ) (draws : ℕ → List ℚ)
    (hlr : 0 ≤ look_ratio) (hd : ∀ k, (draws k).length = n_items) :
    (1 ≤ n_items →
      (simulate_optimal_stopping n_items n_simulations look_ratio
        threshold_ratio draws).isSome = true) ∧
    (n_simulations = 0 →
      simulate_optimal_stopping n_items n_simulations look_ratio
        threshold_ratio draws = some []) ∧
    (n_items = 0 → 1 ≤ n_simulations →
      simulate_optimal_stopping n_items n_simulations look_ratio
        threshold_ratio draws = none) := by
  refine ⟨?_, ?_, ?_⟩
  · intro hn
    obtain ⟨out, hout, _⟩ := runTrials_length n_items look_ratio
      threshold_ratio draws (List.range n_simulations) (fun k _ => by
        intro hnil
        have hk := hd k
        rw [hnil] at hk
        simp at hk
        omega)
    rw [simulate_optimal_stopping, hout]
    rfl
  · intro h0
    rw [simulate_optimal_stopping, h0]
    rfl
  · intro h0 hs
    have h1 : draws 0 = [] := by
      have hk := hd 0
      rw [h0] at hk
      exact List.length_eq_zero.mp hk
    have h2 : runTrial n_items (draws 0) look_ratio threshold_ratio
        = none := by
      rw [h1]
      simp [runTrial]
    obtain ⟨m, hm⟩ : ∃ m, n_simulations = m + 1 :=
      ⟨n_simulations - 1, by omega⟩
    rw [simulate_optimal_stopping, hm, List.range_succ_eq_map,
      runTrials_cons, h2]
    rfl

/-- Witness for the amended C3: out-of-range look_ratio = 3/2 and
threshold_ratio = -1 are accepted and the run completes. -/
theorem C3_amended_no_validation_witness :
    (simulate_optimal_stopping 2 3 (3/2) (-1)
      (fun _ => [1/2, 3/4])).isSome = true :=
  (C3_amended_no_validation 2 3 (3/2) (-1) (fun _ => [1/2, 3/4])
    (by norm_num) (fun _ => rfl)).1 (by norm_num)

/-- Claim C4: the claim states that calculate_statistics fails exactly on
empty outcome sets (with an EmptyInputError) and succeeds on any non-empty
one.  In the code calculate_statistics reads a failure_to_find column that
simulate_optimal_stopping never writes, so it raises KeyError on every
engine-produced outcome set — here the non-empty output of a valid run —
and on the empty set it raises KeyError (the empty DataFrame has no
columns), not a dedicated EmptyInputError. -/
theorem C4_stats_fail_on_engine_output :
    simulateDF 2 1 (1/2) 1 (fun _ => [1/2, 3/4]) =
      some [[("position", PyVal.num 1), ("value", PyVal.num (3/4)),
             ("is_best", PyVal.bool true),
             ("best_possible", PyVal.num (3/4))]] ∧
    calculate_statistics [[("position", PyVal.num 1),
      ("value", PyVal.num (3/4)), ("is_best", PyVal.bool true),
      ("best_possible", PyVal.num (3/4))]] = none ∧
    calculate_statistics [] = none := by
  refine ⟨?_, by simp [calculate_statistics, getColumn, List.lookup],
    by simp [calculate_statistics, getColumn]⟩
  norm_num [simulateDF, simulate_optimal_stopping, runTrials, runTrial,
    lookPhaseLen, lookMax, listMax, selectionLoop, accepts, relativeValue,
    List.range', List.cons_ne_nil, trialRow]

/-- Claim C5 counterexample: the claim states that the sample-sequence
generator accepts a distribution argument from the set with members uniform
and normal.  generate_sample_sequence takes only n_items and its one
sampling call is always np.random.normal(0.5, 0.15, n_items); it is never
the uniform call the claim describes (shown here at n_items = 3). -/
theorem C5_counterexample :
    generate_sample_sequence_call 3 = RandomCall.normal (1/2) (3/20) 3 ∧
    generate_sample_sequence_call 3 ≠ RandomCall.uniform 0 1 3 :=
  ⟨rfl, by simp [generate_sample_sequence_call]⟩

/-- Claim C5 amended: generate_sample_sequence has no distribution
argument; for every n_items it draws from the normal distribution with
mean 0.5 and standard deviation 0.15, and clips each value into [0,1]
(the output has one clipped value per draw, each in [0,1]). -/
theorem C5_amended_normal_clipped (n : ℕ) (draws : List ℚ) (x : ℚ)
    (hx : x ∈ generate_sample_sequence draws) :
    generate_sample_sequence_call n = RandomCall.normal (1/2) (3/20) n ∧
    (generate_sample_sequence draws).length = draws.length ∧
    0 ≤ x ∧ x ≤ 1 := by
  refine ⟨rfl, by simp [generate_sample_sequence], ?_, ?_⟩
  · obtain ⟨y, _, hy⟩ := List.mem_map.mp hx
    rw [← hy, clip01]
    exact le_min (le_max_right y 0) zero_le_one
  · obtain ⟨y, _, hy⟩ := List.mem_map.mp hx
    rw [← hy, clip01]
    exact min_le_right _ 1

/-- Witness for the amended C5: the out-of-range draw 2 is clipped to 1. -/
theorem C5_amended_normal_clipped_witness :
    generate_sample_sequence_call 3 = RandomCall.normal (1/2) (3/20) 3 ∧
    (generate_sample_sequence [2]).length = [(2 : ℚ)].length ∧
    0 ≤ (1 : ℚ) ∧ (1 : ℚ) ≤ 1 :=
  C5_amended_normal_clipped 3 [2] 1
    (by norm_num [generate_sample_sequence, clip01])

/-- Claim C6 counterexample: the claim states that the per-outcome ratio
value / best_possible is defined as 0 when best_possible = 0, so that every
rate lies in [0,1].  The code divides with no guard: on the one-record
outcome set with value = 0 and best_possible = 0 (all columns present,
including failure_to_find) the ratio is NaN (modelled none), the skipna
mean of the all-NaN ratio column is NaN and np.median propagates NaN, so
best_value_rate and median_value_rate are NaN — not 0 and not in [0,1]. -/
theorem C6_counterexample :
    (calculate_statistics [[("position", PyVal.num 0),
        ("value", PyVal.num 0), ("is_best", PyVal.bool true),
        ("best_possible", PyVal.num 0),
        ("failure_to_find", PyVal.bool false)]]).map
      Statistics.best_value_rate = some none ∧
    (calculate_statistics [[("position", PyVal.num 0),
        ("value", PyVal.num 0), ("is_best", PyVal.bool true),
        ("best_possible", PyVal.num 0),
        ("failure_to_find", PyVal.bool false)]]).map
      Statistics.median_value_rate = some none := by
  constructor <;>
  simp [calculate_statistics, getColumn, List.lookup, toNumCell, seriesMean,
    seriesDiv, seriesMedian, npMedian, medianOfSorted]

/-- Claim C6 amended: the ratio pipeline of calculate_statistics
(seriesMean of seriesDiv, the reduction used for best_value_rate) has no
zero guard: a zero best_possible makes the ratio cell NaN rather than 0;
on a non-empty column where every best_possible is positive and
0 <= value <= best_possible, the mean ratio is defined and lies in
[0,1]. -/
theorem C6_amended_ratio_bounds (qs bs : List ℚ)
    (hlen : qs.length = bs.length)
    (hb : ∀ p ∈ qs.zip bs, 0 ≤ p.1 ∧ p.1 ≤ p.2 ∧ 0 < p.2) (hne : qs ≠ []) :
    seriesDiv [some 0] [some 0] = [none] ∧
    (seriesMean (seriesDiv (qs.map some) (bs.map some))).isSome = true ∧
    0 ≤ (seriesMean (seriesDiv (qs.map some) (bs.map some))).getD 0 ∧
    (seriesMean (seriesDiv (qs.map some) (bs.map some))).getD 0 ≤ 1 := by
  have hdiv := seriesDiv_map_some qs bs (fun p hp => ne_of_gt (hb p hp).2.2)
  have hmap : (qs.zip bs).map (fun p => some (p.1 / p.2)) =
      ((qs.zip bs).map (fun p => p.1 / p.2)).map some := by
    rw [List.map_map]
    rfl
  have hlen2 : ((qs.zip bs).map (fun p => p.1 / p.2)).length = qs.length := by
    rw [List.length_map, List.length_zip, hlen, Nat.min_self]
  have hrsne : (qs.zip bs).map (fun p => p.1 / p.2) ≠ [] := by
    intro h0
    apply hne
    apply List.length_eq_zero.mp
    rw [← hlen2, h0]
    rfl
  have hbound : ∀ x ∈ (qs.zip bs).map (fun p => p.1 / p.2),
      0 ≤ x ∧ x ≤ 1 := by
    intro x hx
    obtain ⟨p, hp, hpx⟩ := List.mem_map.mp hx
    obtain ⟨h1, h2, h3⟩ := hb p hp
    constructor
    · rw [← hpx]
      exact div_nonneg h1 (le_of_lt h3)
    · rw [← hpx]
      exact (div_le_one h3).mpr h2
  have hfm : (((qs.zip bs).map (fun p => p.1 / p.2)).map some).filterMap id
      = (qs.zip bs).map (fun p => p.1 / p.2) := by simp
  have hmean : seriesMean (seriesDiv (qs.map some) (bs.map some)) =
      some (((qs.zip bs).map (fun p => p.1 / p.2)).sum /
        ((qs.zip bs).map (fun p => p.1 / p.2)).length) := by
    rw [hdiv, hmap, seriesMean, hfm, if_neg hrsne]
  have hsum0 : 0 ≤ ((qs.zip bs).map (fun p => p.1 / p.2)).sum :=
    List.sum_nonneg (fun x hx => (hbound x hx).1)
  have hsum1 : ((qs.zip bs).map (fun p => p.1 / p.2)).sum ≤
      (((qs.zip bs).map (fun p => p.1 / p.2)).length : ℚ) := by
    have := List.sum_le_card_nsmul ((qs.zip bs).map (fun p => p.1 / p.2)) 1
      (fun x hx => (hbound x hx).2)
    simpa using this
  have hlpos : 0 < ((((qs.zip bs).map (fun p => p.1 / p.2)).length : ℕ) : ℚ) := by
    have h0 : ((qs.zip bs).map (fun p => p.1 / p.2)).length ≠ 0 :=
      fun h => hrsne (List.length_eq_zero.mp h)
    exact_mod_cast Nat.pos_of_ne_zero h0
  refine ⟨by simp [seriesDiv], ?_, ?_, ?_⟩
  · rw [hmean]
    rfl
  · rw [hmean, Option.getD_some]
    exact div_nonneg hsum0 (le_of_lt hlpos)
  · rw [hmean, Option.getD_some]
    rw [div_le_one hlpos]
    exact hsum1

/-- Witness for the amended C6 on the one-outcome column value = 1/2,
best_possible = 1. -/
theorem C6_amended_ratio_bounds_witness :
    seriesDiv [some 0] [some 0] = [none] ∧
    (seriesMean (seriesDiv ([(1 : ℚ)/2].map some)
      ([(1 : ℚ)].map some))).isSome = true ∧
    0 ≤ (seriesMean (seriesDiv ([(1 : ℚ)/2].map some)
      ([(1 : ℚ)].map some))).getD 0 ∧
    (seriesMean (seriesDiv ([(1 : ℚ)/2].map some)
      ([(1 : ℚ)].map some))).getD 0 ≤ 1 :=
  C6_amended_ratio_bounds [1/2] [1] rfl
    (by
      intro p hp
      simp at hp
      subst hp
      norm_num)
    (by simp)

/-- Claim C7: for valid parameters (n_items and n_simulations at least 1,
look_ratio in [0,1], threshold_ratio nonnegative) the run succeeds and the
outcome set holds exactly n_simulations records. -/
theorem C7_outcome_count (n_items n_simulations : ℕ)
    (look_ratio threshold_ratio : ℚ) (draws : ℕ → List ℚ)
    (hn : 1 ≤ n_items) (hs : 1 ≤ n_simulations) (hlr0 : 0 ≤ look_ratio)
    (hlr1 : look_ratio ≤ 1) (ht : 0 ≤ threshold_ratio)
    (hd : ∀ k, (draws k).length = n_items) :
    (simulate_optimal_stopping n_items n_simulations look_ratio
      threshold_ratio draws).isSome = true ∧
    ((simulate_optimal_stopping n_items n_simulations look_ratio
      threshold_ratio draws).getD []).length = n_simulations := by
  obtain ⟨out, hout, hlen⟩ := runTrials_length n_items look_ratio
    threshold_ratio draws (List.range n_simulations) (fun k _ => by
      intro hnil
      have hk := hd k
      rw [hnil] at hk
      simp at hk
      omega)
  rw [simulate_optimal_stopping, hout]
  refine ⟨rfl, ?_⟩
  rw [Option.getD_some, hlen, List.length_range]

/-- Witness for C7 at n_items = 2, n_simulations = 1. -/
theorem C7_outcome_count_witness :
    (simulate_optimal_stopping 2 1 (1/2) 1
      (fun _ => [1/2, 3/4])).isSome = true ∧
    ((simulate_optimal_stopping 2 1 (1/2) 1
      (fun _ => [1/2, 3/4])).getD []).length = 1 :=
  C7_outcome_count 2 1 (1/2) 1 (fun _ => [1/2, 3/4]) (by norm_num)
    (by norm_num) (by norm_num) (by norm_num) (by norm_num) (fun _ => rfl)

/-- Claim C8: every record of a valid run has position below n_items
(positions are naturals, so 0 <= position holds by type), value at most
best_possible, and is_best true exactly when value equals best_possible. -/
theorem C8_outcome_invariants (n_items n_simulations : ℕ)
    (look_ratio threshold_ratio : ℚ) (draws : ℕ → List ℚ)
    (out : List TrialResult)
    (hn : 1 ≤ n_items) (hs : 1 ≤ n_simulations) (hlr0 : 0 ≤ look_ratio)
    (hlr1 : look_ratio ≤ 1) (ht : 0 ≤ threshold_ratio)
    (hd : ∀ k, (draws k).length = n_items)
    (hrun : simulate_optimal_stopping n_items n_simulations look_ratio
      threshold_ratio draws = some out) :
    ∀ r ∈ out, r.position < n_items ∧ r.value ≤ r.best_possible ∧
      (r.is_best = true ↔ r.value = r.best_possible) := by
  intro r hr
  obtain ⟨k, _, hk⟩ := runTrials_mem n_items look_ratio threshold_ratio
    draws (List.range n_simulations) out hrun r hr
  have hposlt := runTrial_position_lt n_items (draws k) look_ratio
    threshold_ratio r hn hk
  refine ⟨hposlt, ?_,
    runTrial_is_best n_items (draws k) look_ratio threshold_ratio r hk⟩
  have hval := runTrial_value_eq n_items (draws k) look_ratio
    threshold_ratio r hk
  have hbest := runTrial_best_possible n_items (draws k) look_ratio
    threshold_ratio r hk
  rw [hval, hbest]
  have hlt : r.position < (draws k).length := by
    rw [hd k]
    exact hposlt
  rw [List.getD_eq_getElem (draws k) 0 hlt]
  exact le_listMax (draws k) _ (List.getElem_mem hlt)

/-- Witness for C8 on the record produced by the run with n_items = 2,
sequence [1/2, 3/4], look_ratio = 1/2, threshold_ratio = 1. -/
theorem C8_outcome_invariants_witness :
    (⟨1, 3/4, true, 3/4⟩ : TrialResult).position < 2 ∧
    (⟨1, 3/4, true, 3/4⟩ : TrialResult).value ≤
      (⟨1, 3/4, true, 3/4⟩ : TrialResult).best_possible ∧
    ((⟨1, 3/4, true, 3/4⟩ : TrialResult).is_best = true ↔
      (⟨1, 3/4, true, 3/4⟩ : TrialResult).value =
        (⟨1, 3/4, true, 3/4⟩ : TrialResult).best_possible) :=
  C8_outcome_invariants 2 1 (1/2) 1 (fun _ => [1/2, 3/4])
    [⟨1, 3/4, true, 3/4⟩] (by norm_num) (by norm_num) (by norm_num)
    (by norm_num) (by norm_num) (fun _ => rfl)
    (by norm_num [simulate_optimal_stopping, runTrials, runTrial,
      lookPhaseLen, lookMax, listMax, selectionLoop, accepts, relativeValue,
      List.range', List.cons_ne_nil])
    ⟨1, 3/4, true, 3/4⟩ (List.mem_singleton.mpr rfl)

/-- Claim C9: with the sequence and look_ratio held fixed, lowering the
threshold cannot destroy acceptance: if some selection-phase item passes
the acceptance test at threshold t, some item passes at every threshold
t2 at most t; contrapositively, the trials that fall back to the last item
at the lower threshold are a subset of those at the higher one. -/
theorem C9_threshold_monotonicity (n_items : ℕ) (sequence : List ℚ)
    (look_ratio t t2 : ℚ) (h : t2 ≤ t) :
    (acceptanceExists n_items sequence look_ratio t = true →
      acceptanceExists n_items sequence look_ratio t2 = true) ∧
    (acceptanceExists n_items sequence look_ratio t2 = false →
      acceptanceExists n_items sequence look_ratio t = false) := by
  have hmain : acceptanceExists n_items sequence look_ratio t = true →
      acceptanceExists n_items sequence look_ratio t2 = true := by
    intro hacc
    simp only [acceptanceExists, List.any_eq_true, accepts,
      decide_eq_true_iff] at hacc ⊢
    obtain ⟨i, hi, hib⟩ := hacc
    exact ⟨i, hi, le_trans h hib⟩
  refine ⟨hmain, ?_⟩
  intro h2
  cases hcase : acceptanceExists n_items sequence look_ratio t
  · rfl
  · rw [hmain hcase] at h2
    cases h2

/-- Witness for C9: acceptance at threshold 1 on [1/2, 3/4] with
look_ratio 1/2 transfers to threshold 1/2. -/
theorem C9_threshold_monotonicity_witness :
    acceptanceExists 2 [1/2, 3/4] (1/2) (1/2) = true :=
  (C9_threshold_monotonicity 2 [1/2, 3/4] (1/2) 1 (1/2) (by norm_num)).1
    (by norm_num [acceptanceExists, lookPhaseLen, lookMax, listMax, accepts,
      relativeValue, List.range'])

/-- Claim C10: in every record the engine produces, value is the sequence
element at the recorded position, in the accepted and the fallback case
alike. -/
theorem C10_value_matches_position (n_items : ℕ) (sequence : List ℚ)
    (look_ratio threshold_ratio : ℚ) (r : TrialResult)
    (h : runTrial n_items sequence look_ratio threshold_ratio = some r) :
    r.value = sequence.getD r.position 0 :=
  runTrial_value_eq n_items sequence look_ratio threshold_ratio r h

/-- Witness for C10 on the trial with sequence [1/2, 3/4]. -/
theorem C10_value_matches_position_witness :
    (⟨1, 3/4, true, 3/4⟩ : TrialResult).value =
      [1/2, 3/4].getD (⟨1, 3/4, true, 3/4⟩ : TrialResult).position 0 :=
  C10_value_matches_position 2 [1/2, 3/4] (1/2) 1 ⟨1, 3/4, true, 3/4⟩
    (by norm_num [runTrial, lookPhaseLen, lookMax, listMax, selectionLoop,
      accepts, relativeValue, List.range', List.cons_ne_nil])

end OptimalStopSim
